import Mathlib

/-!
Verification of the WBSlotsBot monitoring service.

Each definition below is a shallow embedding of the corresponding Python
function of the repository (`wb_monitor.py`, `telegram_bot.py`,
`src/google_sheets_parser.py`, `src/wb_api.py`).  Wall-clock times and
durations are modelled as rationals, passed explicitly where the code reads
`time.time()`.  The SHA-256 message fingerprint of the notifier is abstracted
as a function parameter, since the code only ever compares fingerprints for
equality.
-/

/-- Substring test on character lists: models Python's `in` operator on
strings (`"429" in str(e)` etc.). -/
def hasSubstr (sub : List Char) : List Char → Bool
  | [] => sub.isEmpty
  | c :: rest => sub.isPrefixOf (c :: rest) || hasSubstr sub rest

/- ------------------------------------------------------------------ -/
/- Adaptive pacer: `WBSlotsMonitor.calculate_adaptive_pause`           -/
/- ------------------------------------------------------------------ -/

/-- `self.api_requests_per_minute` (wb_monitor.py line 27). -/
def api_requests_per_minute : ℤ := 6

/-- `self.target_minute_duration` (wb_monitor.py line 35). -/
def target_minute_duration : ℚ := 60

/-- `self.api_pause_between_requests` (wb_monitor.py line 28). -/
def api_pause_between_requests : ℚ := 4

/-- The pacer-relevant mutable fields of `WBSlotsMonitor`. -/
structure PacerState where
  api_execution_times : List ℚ
  current_api_requests : ℕ
  minute_start_time : Option ℚ
deriving DecidableEq

/-- wb_monitor.py lines 65-70: append the newest sample to the history and
keep only the last 10 entries (`self.api_execution_times[-10:]`). -/
def push_history (l : List ℚ) (t : ℚ) : List ℚ :=
  let l' := l ++ [t]
  if 10 < l'.length then l'.drop (l'.length - 10) else l'

/-- wb_monitor.py line 73: arithmetic mean of the stored samples. -/
def mean_latency (l : List ℚ) : ℚ := l.sum / l.length

/-- wb_monitor.py lines 80-84 and 87-92: time left in the current minute,
`max(0, target_minute_duration - elapsed)`; when no minute cycle has been
started the code uses the full minute. -/
def remaining_in_window (minute_start_time : Option ℚ) (now : ℚ) : ℚ :=
  match minute_start_time with
  | some m => max 0 (target_minute_duration - (now - m))
  | none => target_minute_duration

/-- wb_monitor.py lines 94-107: subtract the estimated API time from the
remaining time, spread the rest over the remaining requests (at least 1s),
and clamp at 30s. -/
def distribute_pause (remaining_time : ℚ) (remaining_requests : ℤ) (avg : ℚ) : ℚ :=
  let estimated_api_time : ℚ := (remaining_requests : ℚ) * avg
  let total_pause_time := remaining_time - estimated_api_time
  let adaptive_pause :=
    if 0 < remaining_requests then max 1 (total_pause_time / (remaining_requests : ℚ))
    else api_pause_between_requests
  min adaptive_pause 30

/-- `WBSlotsMonitor.calculate_adaptive_pause` (wb_monitor.py lines 55-109).
Returns the computed pause together with the updated latency history. -/
def calculate_adaptive_pause (s : PacerState) (api_execution_time now : ℚ) :
    ℚ × List ℚ :=
  let hist := push_history s.api_execution_times api_execution_time
  let avg_api_time := mean_latency hist
  let remaining_requests : ℤ := api_requests_per_minute - (s.current_api_requests : ℤ)
  if remaining_requests ≤ 0 then
    (remaining_in_window s.minute_start_time now, hist)
  else
    (distribute_pause (remaining_in_window s.minute_start_time now)
      remaining_requests avg_api_time, hist)

/- ------------------------------------------------------------------ -/
/- Cycle/quota accounting: `WBSlotsMonitor.run_optimized_cycle`        -/
/- ------------------------------------------------------------------ -/

/-- The counter/window-start fields of `WBSlotsMonitor` touched by
`run_optimized_cycle`. -/
structure MonState where
  current_api_requests : ℕ
  minute_start_time : Option ℚ
deriving DecidableEq

/-- `WBSlotsMonitor.reset_minute_cycle` (wb_monitor.py lines 111-115). -/
def reset_minute_cycle (now : ℚ) : MonState := ⟨0, some now⟩

/-- wb_monitor.py lines 436-443: classify the finished cycle; the counter is
reset to 0 exactly when it has reached `api_requests_per_minute`. -/
def classify_cycle (c : ℕ) (start : Option ℚ) : MonState × String :=
  if c = 1 then (⟨c, start⟩, "parse_and_api")
  else if (c : ℤ) < api_requests_per_minute then (⟨c, start⟩, "api_only")
  else (⟨0, start⟩, "api_final")

/-- `WBSlotsMonitor.run_optimized_cycle` (wb_monitor.py lines 409-453),
restricted to its effect on the counter and window-start state.  `now` is the
wall-clock time at the start of the cycle, `parse_ok` tells whether the sheet
parse succeeds (parsing happens only when the counter is 0), and `api_ok`
whether the API request succeeds — only a successful request increments
`current_api_requests` (wb_monitor.py line 373). -/
def run_optimized_cycle_step (s : MonState) (now : ℚ) (parse_ok api_ok : Bool) :
    MonState × String :=
  if s.current_api_requests = 0 then
    let s1 := reset_minute_cycle now
    if !parse_ok then (s1, "parse_failed")
    else
      let c := if api_ok then s1.current_api_requests + 1 else s1.current_api_requests
      classify_cycle c s1.minute_start_time
  else
    let c := if api_ok then s.current_api_requests + 1 else s.current_api_requests
    classify_cycle c s.minute_start_time

/-- Iterated cycles, as driven by `run_continuous_monitoring`. -/
def run_cycles (s : MonState) : List (ℚ × Bool × Bool) → MonState
  | [] => s
  | (now, pok, aok) :: rest => run_cycles (run_optimized_cycle_step s now pok aok).1 rest

theorem run_optimized_cycle_step_lt (s : MonState) (now : ℚ) (pok aok : Bool)
    (h : (s.current_api_requests : ℤ) < api_requests_per_minute) :
    ((run_optimized_cycle_step s now pok aok).1.current_api_requests : ℤ) <
      api_requests_per_minute := by
  obtain ⟨c, st⟩ := s
  unfold api_requests_per_minute at h ⊢
  simp only [MonState.current_api_requests] at h ⊢
  have hc : c < 6 := by omega
  interval_cases c <;> cases pok <;> cases aok <;>
    norm_num [run_optimized_cycle_step, classify_cycle, reset_minute_cycle,
      api_requests_per_minute]

theorem run_cycles_lt (s : MonState) (l : List (ℚ × Bool × Bool))
    (h : (s.current_api_requests : ℤ) < api_requests_per_minute) :
    ((run_cycles s l).current_api_requests : ℤ) < api_requests_per_minute := by
  induction l generalizing s with
  | nil => exact h
  | cons hd tl ih =>
    obtain ⟨now, pok, aok⟩ := hd
    exact ih _ (run_optimized_cycle_step_lt s now pok aok h)

/-- C1: `calculate_adaptive_pause` returns the time left in the window when
no requests remain, and otherwise the clamped even split of the pause budget
`remainingInWindow − remainingCalls × meanLatency` over the remaining calls;
the mean is over the history updated with the just-recorded sample. -/
theorem calculate_adaptive_pause_spec (s : PacerState) (t now m : ℚ)
    (hm : s.minute_start_time = some m) :
    (api_requests_per_minute - (s.current_api_requests : ℤ) ≤ 0 →
      (calculate_adaptive_pause s t now).1 =
        max 0 (target_minute_duration - (now - m))) ∧
    (0 < api_requests_per_minute - (s.current_api_requests : ℤ) →
      (calculate_adaptive_pause s t now).1 =
        min (max 1 ((max 0 (target_minute_duration - (now - m))
            - ((api_requests_per_minute - (s.current_api_requests : ℤ) : ℤ) : ℚ)
              * mean_latency (push_history s.api_execution_times t))
          / ((api_requests_per_minute - (s.current_api_requests : ℤ) : ℤ) : ℚ))) 30) := by
  constructor
  · intro h
    simp only [calculate_adaptive_pause, remaining_in_window, hm, if_pos h]
  · intro h
    have h' : ¬ (api_requests_per_minute - (s.current_api_requests : ℤ) ≤ 0) := by omega
    simp only [calculate_adaptive_pause, remaining_in_window, distribute_pause, hm,
      if_neg h', if_pos h]

/-- Witness for C1: both branches evaluated at concrete states. -/
theorem calculate_adaptive_pause_spec_witness :
    (calculate_adaptive_pause ⟨[], 6, some 0⟩ 1 10).1 =
      max 0 (target_minute_duration - (10 - 0)) ∧
    (calculate_adaptive_pause ⟨[], 1, some 0⟩ 2 2).1 =
      min (max 1 ((max 0 (target_minute_duration - (2 - 0))
          - ((api_requests_per_minute - ((1 : ℕ) : ℤ) : ℤ) : ℚ)
            * mean_latency (push_history [] 2))
        / ((api_requests_per_minute - ((1 : ℕ) : ℤ) : ℤ) : ℚ))) 30 := by
  constructor
  · exact (calculate_adaptive_pause_spec ⟨[], 6, some 0⟩ 1 10 0 rfl).1 (by decide)
  · exact (calculate_adaptive_pause_spec ⟨[], 1, some 0⟩ 2 2 0 rfl).2 (by decide)

theorem remaining_in_window_nonneg (o : Option ℚ) (now : ℚ) :
    0 ≤ remaining_in_window o now := by
  cases o with
  | none => norm_num [remaining_in_window, target_minute_duration]
  | some m => exact le_max_left _ _

/-- C5: with fixed remaining window time and a positive number of remaining
calls, the pause is antitone in the mean latency; and for every state the
returned pause is nonnegative. -/
theorem pacer_monotone_nonneg :
    (∀ (remaining_time : ℚ) (r : ℤ) (a₁ a₂ : ℚ), 0 < r → a₁ ≤ a₂ →
      distribute_pause remaining_time r a₂ ≤ distribute_pause remaining_time r a₁) ∧
    (∀ (s : PacerState) (t now : ℚ), 0 ≤ (calculate_adaptive_pause s t now).1) := by
  constructor
  · intro T r a₁ a₂ hr ha
    have hrq : (0 : ℚ) < (r : ℚ) := by exact_mod_cast hr
    simp only [distribute_pause, if_pos hr]
    have hnum : T - (r : ℚ) * a₂ ≤ T - (r : ℚ) * a₁ :=
      sub_le_sub_left (mul_le_mul_of_nonneg_left ha hrq.le) T
    exact min_le_min (max_le_max le_rfl (div_le_div_of_nonneg_right hnum hrq.le)) le_rfl
  · intro s t now
    simp only [calculate_adaptive_pause]
    split
    · exact remaining_in_window_nonneg _ _
    · rename_i hr
      have hr' : 0 < api_requests_per_minute - (s.current_api_requests : ℤ) := by omega
      simp only [distribute_pause, if_pos hr']
      exact le_min (le_trans zero_le_one (le_max_left _ _)) (by norm_num)

/-- Witness for C5: monotonicity at concrete latencies and nonnegativity at a
concrete state. -/
theorem pacer_monotone_nonneg_witness :
    distribute_pause 58 5 3 ≤ distribute_pause 58 5 2 ∧
    0 ≤ (calculate_adaptive_pause ⟨[], 0, none⟩ 1 0).1 :=
  ⟨pacer_monotone_nonneg.1 58 5 2 3 (by decide) (by norm_num),
   pacer_monotone_nonneg.2 ⟨[], 0, none⟩ 1 0⟩

/-- C6 counterexample: on the first call of a window (empty latency history)
the code records the call's duration before computing the mean, so the mean
is that duration (2), not 0, and the returned pause (48/5) is NOT the value
that would result from treating the full remaining window time as the pause
budget (58/5). -/
theorem first_call_budget_not_full :
    mean_latency (push_history [] 2) ≠ 0 ∧
    (calculate_adaptive_pause ⟨[], 1, some 0⟩ 2 2).1 = 48 / 5 ∧
    (calculate_adaptive_pause ⟨[], 1, some 0⟩ 2 2).1 ≠
      min (max 1 (remaining_in_window (some 0) 2 / 5)) 30 := by
  refine ⟨by norm_num [push_history, mean_latency], ?_, ?_⟩ <;>
    norm_num [calculate_adaptive_pause, push_history, mean_latency, remaining_in_window,
      distribute_pause, api_requests_per_minute, target_minute_duration,
      api_pause_between_requests, max_def, min_def]

/-- C6 amended: on the first call of a window the just-measured duration is
appended to the (empty) history before the mean is taken, so `meanLatency`
equals that duration and the pause budget is
`remainingInWindow − remainingCalls × thatDuration`, not the full remaining
window time. -/
theorem first_call_mean_is_sample (t now m : ℚ) (c : ℕ)
    (hc : 0 < api_requests_per_minute - (c : ℤ)) :
    mean_latency (push_history [] t) = t ∧
    (calculate_adaptive_pause ⟨[], c, some m⟩ t now).1 =
      min (max 1 ((max 0 (target_minute_duration - (now - m))
          - ((api_requests_per_minute - (c : ℤ) : ℤ) : ℚ) * t)
        / ((api_requests_per_minute - (c : ℤ) : ℤ) : ℚ))) 30 := by
  have hmean : mean_latency (push_history [] t) = t := by
    norm_num [push_history, mean_latency]
  refine ⟨hmean, ?_⟩
  have h' : ¬ (api_requests_per_minute - (c : ℤ) ≤ 0) := by omega
  simp only [calculate_adaptive_pause, remaining_in_window, distribute_pause,
    if_neg h', if_pos hc, hmean]

/-- Witness for C6's amended claim at a concrete first call. -/
theorem first_call_mean_is_sample_witness :
    mean_latency (push_history [] 2) = 2 ∧
    (calculate_adaptive_pause ⟨[], 1, some 0⟩ 2 2).1 =
      min (max 1 ((max 0 (target_minute_duration - (2 - 0))
          - ((api_requests_per_minute - ((1 : ℕ) : ℤ) : ℤ) : ℚ) * 2)
        / ((api_requests_per_minute - ((1 : ℕ) : ℤ) : ℤ) : ℚ))) 30 :=
  first_call_mean_is_sample 2 2 0 1 (by decide)

/-- C2 counterexample: from the initial state, three successful cycles put
the counter at 3 with window start 0; a fourth cycle at time 100 — long after
the 60s window has elapsed — neither resets the counter to 0 nor moves the
window start: the code's reset is count-based, not time-based. -/
theorem window_reset_not_time_based :
    run_cycles ⟨0, none⟩ [(0, true, true), (5, true, true), (10, true, true)] =
      ⟨3, some 0⟩ ∧
    target_minute_duration < (100 : ℚ) - 0 ∧
    (run_optimized_cycle_step ⟨3, some 0⟩ 100 true true).1 = ⟨4, some 0⟩ ∧
    ¬ ((run_optimized_cycle_step ⟨3, some 0⟩ 100 true true).1.current_api_requests = 0 ∨
       (run_optimized_cycle_step ⟨3, some 0⟩ 100 true true).1.minute_start_time =
         some 100) := by
  refine ⟨by decide, by norm_num [target_minute_duration], by decide, by decide⟩

/-- C2 amended: the counter never exceeds `quotaPerWindow` (it stays below 6
across any sequence of cycles); the reset is count-based — the counter is set
back to 0 in the very cycle in which it would reach 6, and the window start
is set to the current time at the start of a cycle exactly when the counter
is 0 — not when `windowDuration` elapses. -/
theorem quota_counter_invariant :
    (∀ (s : MonState) (l : List (ℚ × Bool × Bool)),
        (s.current_api_requests : ℤ) < api_requests_per_minute →
        ((run_cycles s l).current_api_requests : ℤ) < api_requests_per_minute) ∧
    (∀ (s : MonState) (now : ℚ) (pok : Bool),
        (s.current_api_requests : ℤ) = api_requests_per_minute - 1 →
        (run_optimized_cycle_step s now pok true).1.current_api_requests = 0) ∧
    (∀ (s : MonState) (now : ℚ) (pok aok : Bool),
        s.current_api_requests = 0 →
        (run_optimized_cycle_step s now pok aok).1.minute_start_time = some now) := by
  refine ⟨run_cycles_lt, ?_, ?_⟩
  · intro s now pok h
    obtain ⟨c, st⟩ := s
    unfold api_requests_per_minute at h
    simp only [MonState.current_api_requests] at h
    have hc : c = 5 := by omega
    subst hc
    cases pok <;>
      norm_num [run_optimized_cycle_step, classify_cycle, reset_minute_cycle,
        api_requests_per_minute]
  · intro s now pok aok h
    obtain ⟨c, st⟩ := s
    simp only [MonState.current_api_requests] at h
    subst h
    cases pok <;> cases aok <;>
      norm_num [run_optimized_cycle_step, classify_cycle, reset_minute_cycle,
        api_requests_per_minute]

/-- Witness for C2's amended claim at concrete states. -/
theorem quota_counter_invariant_witness :
    ((run_cycles ⟨0, none⟩ [(0, true, true), (5, true, true)]).current_api_requests : ℤ) <
      api_requests_per_minute ∧
    (run_optimized_cycle_step ⟨5, some 0⟩ 50 true true).1.current_api_requests = 0 ∧
    (run_optimized_cycle_step ⟨0, some 0⟩ 7 true true).1.minute_start_time = some 7 :=
  ⟨quota_counter_invariant.1 ⟨0, none⟩ _ (by decide),
   quota_counter_invariant.2.1 ⟨5, some 0⟩ 50 true (by decide),
   quota_counter_invariant.2.2 ⟨0, some 0⟩ 7 true true rfl⟩

/- ------------------------------------------------------------------ -/
/- Retry with backoff: `GoogleSheetsParser._retry_with_backoff`        -/
/- ------------------------------------------------------------------ -/

/-- Character-wise lowercasing (Python's `str.lower` for the ASCII markers
compared against below). -/
def lowerChars (l : List Char) : List Char := l.map Char.toLower

/-- google_sheets_parser.py line 112: an error is quota-signatured when its
text contains "429", or "quota" or "limit" case-insensitively. -/
def isQuotaError (e : String) : Bool :=
  hasSubstr "429".toList e.toList ||
  hasSubstr "quota".toList (lowerChars e.toList) ||
  hasSubstr "limit".toList (lowerChars e.toList)

/-- Observable behaviour of one `_retry_with_backoff` run: the final outcome
(`none` models Python's implicit `return None` when `max_retries = 0`), the
number of invocations of the wrapped operation, and the list of backoff
sleeps performed. -/
structure RetryTrace (α : Type) where
  result : Option (Except String α)
  calls : ℕ
  sleeps : List ℚ

/-- The loop body of `_retry_with_backoff` (google_sheets_parser.py lines
102-119).  `k` counts the attempts still available, so the current attempt
index is `maxRetries - k`; `f n` is the outcome of the `n`-th invocation of
the wrapped operation. -/
def retryLoop (f : ℕ → Except String α) (maxRetries : ℕ) :
    ℕ → List ℚ → ℕ → RetryTrace α
  | 0, sleeps, calls => ⟨none, calls, sleeps⟩
  | k + 1, sleeps, calls =>
    let attempt := maxRetries - (k + 1)
    match f attempt with
    | .ok v => ⟨some (.ok v), calls + 1, sleeps⟩
    | .error e =>
      if attempt = maxRetries - 1 then ⟨some (.error e), calls + 1, sleeps⟩
      else if isQuotaError e then
        retryLoop f maxRetries k
          (sleeps ++ [(2 : ℚ) ^ attempt + (attempt : ℚ) * (1 / 10)]) (calls + 1)
      else ⟨some (.error e), calls + 1, sleeps⟩

/-- `GoogleSheetsParser._retry_with_backoff` (google_sheets_parser.py lines
100-119) with `max_retries` attempts. -/
def retry_with_backoff (f : ℕ → Except String α) (maxRetries : ℕ) : RetryTrace α :=
  retryLoop f maxRetries maxRetries [] 0

theorem retryLoop_calls_le (f : ℕ → Except String α) (maxRetries k : ℕ)
    (sleeps : List ℚ) (calls : ℕ) :
    (retryLoop f maxRetries k sleeps calls).calls ≤ calls + k := by
  induction k generalizing sleeps calls with
  | zero => simp [retryLoop]
  | succ k ih =>
    rw [retryLoop]
    cases f (maxRetries - (k + 1)) with
    | ok v => simp
    | error e =>
      dsimp only
      split
      · simp
      · split
        · exact le_trans (ih _ _) (by omega)
        · simp

/-- C3: the wrapped operation is invoked at most `max_retries` times; with
quota-signatured failures on every attempt and the default `max_retries = 3`
the caller sleeps `2^attempt + attempt·0.1` seconds after attempts 0 and 1
and re-raises the failure after exactly 3 invocations; a non-quota failure on
the first attempt is re-raised immediately after exactly 1 invocation with no
backoff sleep. -/
theorem retry_with_backoff_spec :
    (∀ (α : Type) (f : ℕ → Except String α) (n : ℕ),
        (retry_with_backoff f n).calls ≤ n) ∧
    (∀ (α : Type) (f : ℕ → Except String α),
        (∀ k, ∃ e, f k = .error e ∧ isQuotaError e = true) →
        (∃ e, (retry_with_backoff f 3).result = some (.error e)) ∧
        (retry_with_backoff f 3).calls = 3 ∧
        (retry_with_backoff f 3).sleeps =
          [(2 : ℚ) ^ (0 : ℕ) + ((0 : ℕ) : ℚ) * (1 / 10),
           (2 : ℚ) ^ (1 : ℕ) + ((1 : ℕ) : ℚ) * (1 / 10)]) ∧
    (∀ (α : Type) (f : ℕ → Except String α) (e : String),
        f 0 = .error e → isQuotaError e = false →
        (retry_with_backoff f 3).result = some (.error e) ∧
        (retry_with_backoff f 3).calls = 1 ∧
        (retry_with_backoff f 3).sleeps = []) := by
  refine ⟨?_, ?_, ?_⟩
  · intro α f n
    simpa using retryLoop_calls_le f n n [] 0
  · intro α f h
    obtain ⟨e0, he0, hq0⟩ := h 0
    obtain ⟨e1, he1, hq1⟩ := h 1
    obtain ⟨e2, he2, hq2⟩ := h 2
    refine ⟨⟨e2, ?_⟩, ?_, ?_⟩ <;>
      simp only [retry_with_backoff, retryLoop] <;>
      norm_num [he0, he1, he2, hq0, hq1, hq2]
  · intro α f e he hq
    refine ⟨?_, ?_, ?_⟩ <;>
      simp only [retry_with_backoff, retryLoop] <;>
      norm_num [he, hq]

/-- Witness for C3 at concrete operations: an always-429 operation and an
operation failing with a non-quota error. -/
theorem retry_with_backoff_spec_witness :
    (retry_with_backoff (fun _ => (.error "boom" : Except String ℕ)) 3).calls ≤ 3 ∧
    ((∃ e, (retry_with_backoff (fun _ => (.error "HTTP 429" : Except String ℕ)) 3).result =
        some (.error e)) ∧
     (retry_with_backoff (fun _ => (.error "HTTP 429" : Except String ℕ)) 3).calls = 3 ∧
     (retry_with_backoff (fun _ => (.error "HTTP 429" : Except String ℕ)) 3).sleeps =
       [(2 : ℚ) ^ (0 : ℕ) + ((0 : ℕ) : ℚ) * (1 / 10),
        (2 : ℚ) ^ (1 : ℕ) + ((1 : ℕ) : ℚ) * (1 / 10)]) ∧
    ((retry_with_backoff (fun _ => (.error "boom" : Except String ℕ)) 3).result =
        some (.error "boom") ∧
     (retry_with_backoff (fun _ => (.error "boom" : Except String ℕ)) 3).calls = 1 ∧
     (retry_with_backoff (fun _ => (.error "boom" : Except String ℕ)) 3).sleeps = []) :=
  ⟨retry_with_backoff_spec.1 ℕ (fun _ => .error "boom") 3,
   retry_with_backoff_spec.2.1 ℕ (fun _ => .error "HTTP 429")
     (fun _ => ⟨"HTTP 429", rfl, by rfl⟩),
   retry_with_backoff_spec.2.2 ℕ (fun _ => .error "boom") "boom" rfl (by rfl)⟩

/- ------------------------------------------------------------------ -/
/- Change notifier: `TelegramNotifier.send_notification`               -/
/- ------------------------------------------------------------------ -/

/-- Subscriber table: user ids with their stored `last_hash` fingerprint
(`self.subscribers`, telegram_bot.py line 37). -/
abbrev SubTable := List (ℤ × Option String)

/-- Outcome of one `bot.send_message` network call. -/
inductive SendOutcome where
  | ok
  | err (msg : String)

/-- telegram_bot.py line 491: an error marks the target unreachable when its
text contains "blocked" or "chat not found" case-insensitively. -/
def is_unreachable_error (m : String) : Bool :=
  hasSubstr "blocked".toList (lowerChars m.toList) ||
  hasSubstr "chat not found".toList (lowerChars m.toList)

/-- The ids present in a subscriber table. -/
def table_keys (t : SubTable) : List ℤ := t.map Prod.fst

/-- Stored fingerprint of a user id, `none` when the user is absent
(dict lookup on `self.subscribers`). -/
def get_hash (t : SubTable) (u : ℤ) : Option (Option String) :=
  (t.find? (fun p => p.1 == u)).map Prod.snd

/-- telegram_bot.py line 483: store the new fingerprint for a user. -/
def set_last_hash (t : SubTable) (u : ℤ) (fp : String) : SubTable :=
  t.map (fun p => if p.1 == u then (p.1, some fp) else p)

/-- telegram_bot.py line 492: delete a user from the table. -/
def remove_subscriber (t : SubTable) (u : ℤ) : SubTable :=
  t.filter (fun p => !(p.1 == u))

/-- telegram_bot.py lines 474-495: process the selected users in order; a
successful send stores the new fingerprint, an unreachable-target error
removes the user, any other error leaves the table unchanged. -/
def send_loop (outcome : ℤ → SendOutcome) (fp : String) :
    List ℤ → SubTable → SubTable
  | [], t => t
  | u :: rest, t =>
    match outcome u with
    | .ok => send_loop outcome fp rest (set_last_hash t u fp)
    | .err m =>
      if is_unreachable_error m then
        send_loop outcome fp rest (remove_subscriber t u)
      else send_loop outcome fp rest t

/-- Observable result of one `send_notification` run: the updated table, the
ids to which a network send was issued, and the number of
`save_subscriptions` persistence calls. -/
structure NotifyResult where
  table : SubTable
  sent : List ℤ
  saves : ℕ

/-- `TelegramNotifier.send_notification` (telegram_bot.py lines 442-500).
`msg` is the rendered message and `hashFn msg` its fingerprint
(`calculate_message_hash`, lines 213-215, abstracted since only fingerprint
equality is ever inspected); `outcome u` is the result of the network send
to user `u`. -/
def send_notification (t : SubTable) (msg : String) (hashFn : String → String)
    (outcome : ℤ → SendOutcome) : NotifyResult :=
  if t.isEmpty then ⟨t, [], 0⟩
  else
    let new_message_hash := hashFn msg
    let users_to_send :=
      (t.filter (fun p => !(p.2 == some new_message_hash))).map Prod.fst
    if users_to_send.isEmpty then ⟨t, [], 0⟩
    else ⟨send_loop outcome new_message_hash users_to_send t, users_to_send, 1⟩

/-- telegram_bot.py lines 54-58: migration of the legacy list-only
subscription format.  Python dict-comprehension semantics: a repeated id
overwrites the existing entry in place. -/
def dict_insert (t : SubTable) (u : ℤ) (v : Option String) : SubTable :=
  if t.any (fun p => p.1 == u) then
    t.map (fun p => if p.1 == u then (u, v) else p)
  else t ++ [(u, v)]

/-- `TelegramNotifier.load_subscriptions` (telegram_bot.py lines 46-67) on a
store in the legacy format `{"subscribed_users": [...]}`: every listed id is
loaded with `last_hash = None`. -/
def load_subscriptions_legacy (subscribed_users : List ℤ) : SubTable :=
  subscribed_users.foldl (fun acc u => dict_insert acc u none) []


theorem get_hash_cons (p : ℤ × Option String) (t : SubTable) (u : ℤ) :
    get_hash (p :: t) u = if p.1 = u then some p.2 else get_hash t u := by
  by_cases h : p.1 = u
  · have hb : (p.1 == u) = true := by simp [h]
    simp [get_hash, List.find?, hb, h]
  · have hb : (p.1 == u) = false := by simp [h]
    simp [get_hash, List.find?, hb, h]

theorem set_last_hash_cons (p : ℤ × Option String) (t : SubTable) (u : ℤ) (fp : String) :
    set_last_hash (p :: t) u fp =
      (if p.1 = u then (p.1, some fp) else p) :: set_last_hash t u fp := by
  by_cases h : p.1 = u <;> simp [set_last_hash, h]

theorem remove_subscriber_cons (p : ℤ × Option String) (t : SubTable) (u : ℤ) :
    remove_subscriber (p :: t) u =
      if p.1 = u then remove_subscriber t u else p :: remove_subscriber t u := by
  by_cases h : p.1 = u <;> simp [remove_subscriber, h]

theorem send_loop_cons_ok (o : ℤ → SendOutcome) (fp : String) (u : ℤ)
    (rest : List ℤ) (t : SubTable) (h : o u = .ok) :
    send_loop o fp (u :: rest) t = send_loop o fp rest (set_last_hash t u fp) := by
  rw [send_loop, h]

theorem send_loop_cons_err (o : ℤ → SendOutcome) (fp : String) (u : ℤ)
    (rest : List ℤ) (t : SubTable) (m : String) (h : o u = .err m) :
    send_loop o fp (u :: rest) t =
      if is_unreachable_error m then send_loop o fp rest (remove_subscriber t u)
      else send_loop o fp rest t := by
  rw [send_loop, h]

theorem get_hash_set_ne (t : SubTable) (u v : ℤ) (fp : String) (hvu : v ≠ u) :
    get_hash (set_last_hash t u fp) v = get_hash t v := by
  induction t with
  | nil => rfl
  | cons p t ih =>
    by_cases h : p.1 = u
    · have hpv : ¬ p.1 = v := by rw [h]; exact fun hv => hvu hv.symm
      rw [set_last_hash_cons, if_pos h, get_hash_cons, get_hash_cons,
        if_neg hpv, if_neg hpv, ih]
    · rw [set_last_hash_cons, if_neg h, get_hash_cons, get_hash_cons, ih]

theorem get_hash_set_self (t : SubTable) (u : ℤ) (fp : String)
    (h : get_hash t u ≠ none) :
    get_hash (set_last_hash t u fp) u = some (some fp) := by
  induction t with
  | nil => simp [get_hash] at h
  | cons p t ih =>
    by_cases hp : p.1 = u
    · rw [set_last_hash_cons, if_pos hp, get_hash_cons, if_pos hp]
    · rw [get_hash_cons, if_neg hp] at h
      rw [set_last_hash_cons, if_neg hp, get_hash_cons, if_neg hp, ih h]

theorem get_hash_remove_self (t : SubTable) (u : ℤ) :
    get_hash (remove_subscriber t u) u = none := by
  induction t with
  | nil => rfl
  | cons p t ih =>
    by_cases h : p.1 = u
    · rw [remove_subscriber_cons, if_pos h, ih]
    · rw [remove_subscriber_cons, if_neg h, get_hash_cons, if_neg h, ih]

theorem get_hash_remove_ne (t : SubTable) (u v : ℤ) (hvu : v ≠ u) :
    get_hash (remove_subscriber t u) v = get_hash t v := by
  induction t with
  | nil => rfl
  | cons p t ih =>
    by_cases h : p.1 = u
    · have hpv : ¬ p.1 = v := by rw [h]; exact fun hv => hvu hv.symm
      rw [remove_subscriber_cons, if_pos h, get_hash_cons, if_neg hpv, ih]
    · rw [remove_subscriber_cons, if_neg h, get_hash_cons, get_hash_cons, ih]

theorem get_hash_send_loop_not_mem (o : ℤ → SendOutcome) (fp : String)
    (us : List ℤ) (t : SubTable) (u : ℤ) (h : u ∉ us) :
    get_hash (send_loop o fp us t) u = get_hash t u := by
  induction us generalizing t with
  | nil => rfl
  | cons v rest ih =>
    have hvu : u ≠ v := fun hv => h (hv ▸ List.mem_cons_self v rest)
    have hrest : u ∉ rest := fun hr => h (List.mem_cons_of_mem v hr)
    cases ho : o v with
    | ok =>
      rw [send_loop_cons_ok _ _ _ _ _ ho, ih _ hrest, get_hash_set_ne _ _ _ _ hvu]
    | err m =>
      rw [send_loop_cons_err _ _ _ _ _ _ ho]
      by_cases hm : is_unreachable_error m
      · rw [if_pos hm, ih _ hrest, get_hash_remove_ne _ _ _ hvu]
      · rw [if_neg hm, ih _ hrest]

theorem get_hash_send_loop_ok (o : ℤ → SendOutcome) (fp : String)
    (us : List ℤ) (t : SubTable) (u : ℤ) (hnd : us.Nodup) (hu : u ∈ us)
    (ho : o u = .ok) (hp : get_hash t u ≠ none) :
    get_hash (send_loop o fp us t) u = some (some fp) := by
  induction us generalizing t with
  | nil => cases hu
  | cons v rest ih =>
    rcases List.mem_cons.mp hu with hv | hr
    · subst hv
      rw [send_loop_cons_ok _ _ _ _ _ ho,
        get_hash_send_loop_not_mem _ _ _ _ _ (List.nodup_cons.mp hnd).1]
      exact get_hash_set_self t u fp hp
    · have hvu : u ≠ v := by
        rintro rfl
        exact (List.nodup_cons.mp hnd).1 hr
      cases hov : o v with
      | ok =>
        rw [send_loop_cons_ok _ _ _ _ _ hov]
        exact ih _ (List.nodup_cons.mp hnd).2 hr
          (by rw [get_hash_set_ne _ _ _ _ hvu]; exact hp)
      | err m =>
        rw [send_loop_cons_err _ _ _ _ _ _ hov]
        by_cases hm : is_unreachable_error m
        · rw [if_pos hm]
          exact ih _ (List.nodup_cons.mp hnd).2 hr
            (by rw [get_hash_remove_ne _ _ _ hvu]; exact hp)
        · rw [if_neg hm]
          exact ih _ (List.nodup_cons.mp hnd).2 hr hp

theorem get_hash_send_loop_unreachable (o : ℤ → SendOutcome) (fp : String)
    (us : List ℤ) (t : SubTable) (u : ℤ) (m : String) (hnd : us.Nodup)
    (hu : u ∈ us) (ho : o u = .err m) (hm : is_unreachable_error m = true) :
    get_hash (send_loop o fp us t) u = none := by
  induction us generalizing t with
  | nil => cases hu
  | cons v rest ih =>
    rcases List.mem_cons.mp hu with hv | hr
    · subst hv
      rw [send_loop_cons_err _ _ _ _ _ _ ho, if_pos hm,
        get_hash_send_loop_not_mem _ _ _ _ _ (List.nodup_cons.mp hnd).1]
      exact get_hash_remove_self t u
    · cases hov : o v with
      | ok =>
        rw [send_loop_cons_ok _ _ _ _ _ hov]
        exact ih _ (List.nodup_cons.mp hnd).2 hr
      | err m' =>
        rw [send_loop_cons_err _ _ _ _ _ _ hov]
        by_cases hm' : is_unreachable_error m'
        · rw [if_pos hm']
          exact ih _ (List.nodup_cons.mp hnd).2 hr
        · rw [if_neg hm']
          exact ih _ (List.nodup_cons.mp hnd).2 hr

theorem get_hash_send_loop_err_other (o : ℤ → SendOutcome) (fp : String)
    (us : List ℤ) (t : SubTable) (u : ℤ) (m : String) (hnd : us.Nodup)
    (hu : u ∈ us) (ho : o u = .err m) (hm : is_unreachable_error m = false) :
    get_hash (send_loop o fp us t) u = get_hash t u := by
  induction us generalizing t with
  | nil => cases hu
  | cons v rest ih =>
    rcases List.mem_cons.mp hu with hv | hr
    · subst hv
      rw [send_loop_cons_err _ _ _ _ _ _ ho, if_neg (by simp [hm])]
      exact get_hash_send_loop_not_mem _ _ _ _ _ (List.nodup_cons.mp hnd).1
    · have hvu : u ≠ v := by
        rintro rfl
        exact (List.nodup_cons.mp hnd).1 hr
      cases hov : o v with
      | ok =>
        rw [send_loop_cons_ok _ _ _ _ _ hov, ih _ (List.nodup_cons.mp hnd).2 hr,
          get_hash_set_ne _ _ _ _ hvu]
      | err m' =>
        rw [send_loop_cons_err _ _ _ _ _ _ hov]
        by_cases hm' : is_unreachable_error m'
        · rw [if_pos hm', ih _ (List.nodup_cons.mp hnd).2 hr,
            get_hash_remove_ne _ _ _ hvu]
        · rw [if_neg hm', ih _ (List.nodup_cons.mp hnd).2 hr]

theorem table_keys_set (t : SubTable) (u : ℤ) (fp : String) :
    table_keys (set_last_hash t u fp) = table_keys t := by
  induction t with
  | nil => rfl
  | cons p t ih =>
    by_cases h : p.1 = u
    · rw [set_last_hash_cons, if_pos h]
      simp only [table_keys, List.map_cons] at ih ⊢
      rw [ih]
    · rw [set_last_hash_cons, if_neg h]
      simp only [table_keys, List.map_cons] at ih ⊢
      rw [ih]

theorem table_keys_remove_sublist (t : SubTable) (u : ℤ) :
    List.Sublist (table_keys (remove_subscriber t u)) (table_keys t) :=
  (List.filter_sublist _).map Prod.fst

theorem send_loop_keys_nodup (o : ℤ → SendOutcome) (fp : String)
    (us : List ℤ) (t : SubTable) (hnd : (table_keys t).Nodup) :
    (table_keys (send_loop o fp us t)).Nodup := by
  induction us generalizing t with
  | nil => exact hnd
  | cons v rest ih =>
    cases hov : o v with
    | ok =>
      rw [send_loop_cons_ok _ _ _ _ _ hov]
      exact ih _ (by rw [table_keys_set]; exact hnd)
    | err m =>
      rw [send_loop_cons_err _ _ _ _ _ _ hov]
      by_cases hm : is_unreachable_error m
      · rw [if_pos hm]
        exact ih _ (List.Nodup.sublist (table_keys_remove_sublist t v) hnd)
      · rw [if_neg hm]
        exact ih _ hnd

theorem get_hash_eq_of_mem (t : SubTable) (p : ℤ × Option String) (u : ℤ)
    (hnd : (table_keys t).Nodup) (hp : p ∈ t) (hk : p.1 = u) :
    get_hash t u = some p.2 := by
  induction t with
  | nil => cases hp
  | cons q t ih =>
    have hnd' : q.1 ∉ table_keys t ∧ (table_keys t).Nodup := by
      rw [table_keys, List.map_cons] at hnd
      exact List.nodup_cons.mp hnd
    rw [get_hash_cons]
    rcases List.mem_cons.mp hp with hq | hmem
    · subst hq
      rw [if_pos hk]
    · by_cases hqu : q.1 = u
      · exact absurd (List.mem_map.mpr ⟨p, hmem, hk⟩) (hqu ▸ hnd'.1)
      · rw [if_neg hqu]
        exact ih hnd'.2 hmem

theorem exists_entry_of_get_hash (t : SubTable) (u : ℤ) (h0 : Option String)
    (h : get_hash t u = some h0) : ∃ p, p ∈ t ∧ p.1 = u ∧ p.2 = h0 := by
  unfold get_hash at h
  cases hf : List.find? (fun p => p.1 == u) t with
  | none => rw [hf] at h; cases h
  | some p =>
    rw [hf] at h
    refine ⟨p, List.mem_of_find?_eq_some hf, ?_, by simpa using h⟩
    have := List.find?_some hf
    simpa using this

theorem mem_users_to_send (t : SubTable) (fp : String) (u : ℤ) (h0 : Option String)
    (hget : get_hash t u = some h0) (hne : h0 ≠ some fp) :
    u ∈ (t.filter (fun p => !(p.2 == some fp))).map Prod.fst := by
  obtain ⟨p, hp, hk, hv⟩ := exists_entry_of_get_hash t u h0 hget
  exact List.mem_map.mpr ⟨p, List.mem_filter.mpr ⟨hp, by simp [hv, hne]⟩, hk⟩

theorem not_mem_users_to_send (t : SubTable) (fp : String) (u : ℤ)
    (hnd : (table_keys t).Nodup) (hget : get_hash t u = some (some fp)) :
    u ∉ (t.filter (fun p => !(p.2 == some fp))).map Prod.fst := by
  intro hu
  obtain ⟨p, hpf, hk⟩ := List.mem_map.mp hu
  have hpt := (List.mem_filter.mp hpf).1
  have hpred := (List.mem_filter.mp hpf).2
  have hgh := get_hash_eq_of_mem t p u hnd hpt hk
  have h2 : some (some fp) = some p.2 := hget.symm.trans hgh
  have hp2 : p.2 = some fp := (Option.some_inj.mp h2).symm
  simp [hp2] at hpred

theorem users_to_send_nodup (t : SubTable) (fp : String)
    (hnd : (table_keys t).Nodup) :
    ((t.filter (fun p => !(p.2 == some fp))).map Prod.fst).Nodup :=
  List.Nodup.sublist ((List.filter_sublist _).map Prod.fst) hnd

theorem users_to_send_keys (t : SubTable) (fp : String) (u : ℤ)
    (hu : u ∈ (t.filter (fun p => !(p.2 == some fp))).map Prod.fst) :
    ∃ p, p ∈ t ∧ p.1 = u := by
  obtain ⟨p, hpf, hk⟩ := List.mem_map.mp hu
  exact ⟨p, (List.mem_filter.mp hpf).1, hk⟩

theorem send_notification_empty (t : SubTable) (msg : String)
    (hashFn : String → String) (o : ℤ → SendOutcome) (h : t.isEmpty) :
    send_notification t msg hashFn o = ⟨t, [], 0⟩ := by
  simp only [send_notification]
  rw [if_pos h]

theorem send_notification_no_users (t : SubTable) (msg : String)
    (hashFn : String → String) (o : ℤ → SendOutcome)
    (h : ((t.filter (fun p => !(p.2 == some (hashFn msg)))).map Prod.fst).isEmpty) :
    send_notification t msg hashFn o = ⟨t, [], 0⟩ := by
  simp only [send_notification]
  split_ifs
  · rfl
  · rfl

theorem send_notification_eq (t : SubTable) (msg : String)
    (hashFn : String → String) (o : ℤ → SendOutcome)
    (hne : ¬ t.isEmpty)
    (hus : ¬ ((t.filter (fun p => !(p.2 == some (hashFn msg)))).map Prod.fst).isEmpty) :
    send_notification t msg hashFn o =
      ⟨send_loop o (hashFn msg)
          ((t.filter (fun p => !(p.2 == some (hashFn msg)))).map Prod.fst) t,
        (t.filter (fun p => !(p.2 == some (hashFn msg)))).map Prod.fst, 1⟩ := by
  simp only [send_notification]
  rw [if_neg hne, if_neg hus]

theorem sent_count_zero (t : SubTable) (msg : String) (hashFn : String → String)
    (o : ℤ → SendOutcome) (u : ℤ)
    (hnotin : u ∉ (t.filter (fun p => !(p.2 == some (hashFn msg)))).map Prod.fst) :
    (send_notification t msg hashFn o).sent.count u = 0 := by
  by_cases ht : t.isEmpty
  · rw [send_notification_empty t msg hashFn o ht]
    rfl
  · by_cases hus :
      ((t.filter (fun p => !(p.2 == some (hashFn msg)))).map Prod.fst).isEmpty
    · rw [send_notification_no_users t msg hashFn o hus]
      rfl
    · rw [send_notification_eq t msg hashFn o ht hus]
      exact List.count_eq_zero.mpr hnotin

theorem send_twice_counts (t : SubTable) (msg : String) (hashFn : String → String)
    (o : ℤ → SendOutcome) (u : ℤ) (h0 : Option String)
    (hnd : (table_keys t).Nodup) (hget : get_hash t u = some h0)
    (hne : h0 ≠ some (hashFn msg)) (ho : o u = .ok) :
    (send_notification t msg hashFn o).sent.count u = 1 ∧
    (send_notification (send_notification t msg hashFn o).table msg hashFn o).sent.count u
      = 0 := by
  have ht : ¬ t.isEmpty := by
    cases t with
    | nil => simp [get_hash] at hget
    | cons p l => simp
  have hu : u ∈ (t.filter (fun p => !(p.2 == some (hashFn msg)))).map Prod.fst :=
    mem_users_to_send t (hashFn msg) u h0 hget hne
  have hus : ¬ ((t.filter (fun p => !(p.2 == some (hashFn msg)))).map Prod.fst).isEmpty := by
    cases he : (t.filter (fun p => !(p.2 == some (hashFn msg)))).map Prod.fst with
    | nil => rw [he] at hu; cases hu
    | cons a l => simp
  rw [send_notification_eq t msg hashFn o ht hus]
  have husnd := users_to_send_nodup t (hashFn msg) hnd
  constructor
  · exact List.count_eq_one_of_mem husnd hu
  · have hpres : get_hash t u ≠ none := by rw [hget]; simp
    have htab : get_hash (send_loop o (hashFn msg)
        ((t.filter (fun p => !(p.2 == some (hashFn msg)))).map Prod.fst) t) u =
        some (some (hashFn msg)) :=
      get_hash_send_loop_ok o (hashFn msg) _ t u husnd hu ho hpres
    have hkeys : (table_keys (send_loop o (hashFn msg)
        ((t.filter (fun p => !(p.2 == some (hashFn msg)))).map Prod.fst) t)).Nodup :=
      send_loop_keys_nodup o (hashFn msg) _ t hnd
    exact sent_count_zero _ msg hashFn o u
      (not_mem_users_to_send _ (hashFn msg) u hkeys htab)

/-- C4: a subscriber whose stored fingerprint differs from the snapshot's and
whose send succeeds receives exactly one network send across two deliveries
of the same snapshot (the second is suppressed by the stored fingerprint
matching); and when every subscriber's stored fingerprint already equals the
snapshot's fingerprint, no network send occurs at all. -/
theorem dedup_idempotent (t : SubTable) (msg : String) (hashFn : String → String)
    (o : ℤ → SendOutcome) (u : ℤ) (h0 : Option String)
    (hnd : (table_keys t).Nodup) (hget : get_hash t u = some h0)
    (hne : h0 ≠ some (hashFn msg)) (ho : o u = .ok) :
    ((send_notification t msg hashFn o).sent.count u = 1 ∧
     (send_notification (send_notification t msg hashFn o).table msg hashFn o).sent.count u
       = 0) ∧
    (∀ (t' : SubTable), (∀ p ∈ t', p.2 = some (hashFn msg)) →
      (send_notification t' msg hashFn o).sent = [] ∧
      (send_notification t' msg hashFn o).saves = 0) := by
  refine ⟨send_twice_counts t msg hashFn o u h0 hnd hget hne ho, ?_⟩
  intro t' hall
  have hf : t'.filter (fun p => !(p.2 == some (hashFn msg))) = [] :=
    List.filter_eq_nil_iff.mpr (fun p hp => by simp [hall p hp])
  have : ((t'.filter (fun p => !(p.2 == some (hashFn msg)))).map Prod.fst).isEmpty := by
    rw [hf]
    rfl
  rw [send_notification_no_users t' msg hashFn o this]
  exact ⟨rfl, rfl⟩

/-- Witness for C4 at a concrete table, message and outcome. -/
theorem dedup_idempotent_witness :
    ((send_notification [((1 : ℤ), none)] "m" id (fun _ => .ok)).sent.count 1 = 1 ∧
     (send_notification
        (send_notification [((1 : ℤ), none)] "m" id (fun _ => .ok)).table
        "m" id (fun _ => .ok)).sent.count 1 = 0) ∧
    ((send_notification [((2 : ℤ), some "m")] "m" id (fun _ => .ok)).sent = [] ∧
     (send_notification [((2 : ℤ), some "m")] "m" id (fun _ => .ok)).saves = 0) := by
  have h := dedup_idempotent [((1 : ℤ), none)] "m" id (fun _ => .ok) 1 none
    (by decide) rfl (by simp) rfl
  exact ⟨h.1, h.2 [((2 : ℤ), some "m")] (by decide)⟩

/-- C7: for every selected subscriber of a delivery batch, a successful send
stores the snapshot fingerprint, an unreachable-target failure removes the
subscriber permanently, and any other failure leaves the entry unchanged;
the subscriber table is persisted exactly once after the whole (nonempty)
batch, not once per subscriber. -/
theorem notifier_batch_spec (t : SubTable) (msg : String) (hashFn : String → String)
    (o : ℤ → SendOutcome) (hnd : (table_keys t).Nodup) :
    (∀ u ∈ (send_notification t msg hashFn o).sent,
      (o u = .ok →
        get_hash (send_notification t msg hashFn o).table u =
          some (some (hashFn msg))) ∧
      (∀ m, o u = .err m → is_unreachable_error m = true →
        get_hash (send_notification t msg hashFn o).table u = none) ∧
      (∀ m, o u = .err m → is_unreachable_error m = false →
        get_hash (send_notification t msg hashFn o).table u = get_hash t u)) ∧
    ((send_notification t msg hashFn o).sent ≠ [] →
      (send_notification t msg hashFn o).saves = 1) := by
  by_cases ht : t.isEmpty
  · rw [send_notification_empty t msg hashFn o ht]
    exact ⟨fun u hu => absurd hu (by simp), fun h => absurd rfl h⟩
  · by_cases hus :
      ((t.filter (fun p => !(p.2 == some (hashFn msg)))).map Prod.fst).isEmpty
    · rw [send_notification_no_users t msg hashFn o hus]
      exact ⟨fun u hu => absurd hu (by simp), fun h => absurd rfl h⟩
    · rw [send_notification_eq t msg hashFn o ht hus]
      have husnd := users_to_send_nodup t (hashFn msg) hnd
      refine ⟨fun u hu => ?_, fun _ => rfl⟩
      obtain ⟨p, hpt, hpk⟩ := users_to_send_keys t (hashFn msg) u hu
      have hpres : get_hash t u ≠ none := by
        rw [get_hash_eq_of_mem t p u hnd hpt hpk]
        simp
      refine ⟨fun ho => ?_, fun m hom hm => ?_, fun m hom hm => ?_⟩
      · exact get_hash_send_loop_ok o (hashFn msg) _ t u husnd hu ho hpres
      · exact get_hash_send_loop_unreachable o (hashFn msg) _ t u m husnd hu hom hm
      · exact get_hash_send_loop_err_other o (hashFn msg) _ t u m husnd hu hom hm

/-- Witness for C7: a three-subscriber batch where the first send succeeds,
the second hits a blocked target and the third fails transiently. -/
theorem notifier_batch_spec_witness :
    get_hash (send_notification [((1 : ℤ), none), (2, none), (3, none)] "m" id
      (fun u => if u = 1 then .ok
                else if u = 2 then .err "Forbidden: bot was blocked by the user"
                else .err "boom")).table 1 = some (some "m") ∧
    get_hash (send_notification [((1 : ℤ), none), (2, none), (3, none)] "m" id
      (fun u => if u = 1 then .ok
                else if u = 2 then .err "Forbidden: bot was blocked by the user"
                else .err "boom")).table 2 = none ∧
    get_hash (send_notification [((1 : ℤ), none), (2, none), (3, none)] "m" id
      (fun u => if u = 1 then .ok
                else if u = 2 then .err "Forbidden: bot was blocked by the user"
                else .err "boom")).table 3 =
      get_hash [((1 : ℤ), none), (2, none), (3, none)] 3 ∧
    (send_notification [((1 : ℤ), none), (2, none), (3, none)] "m" id
      (fun u => if u = 1 then .ok
                else if u = 2 then .err "Forbidden: bot was blocked by the user"
                else .err "boom")).saves = 1 := by
  have h := notifier_batch_spec [((1 : ℤ), none), (2, none), (3, none)] "m" id
    (fun u => if u = 1 then .ok
              else if u = 2 then .err "Forbidden: bot was blocked by the user"
              else .err "boom") (by decide)
  refine ⟨(h.1 1 (by decide)).1 rfl,
    (h.1 2 (by decide)).2.1 "Forbidden: bot was blocked by the user" rfl (by decide),
    (h.1 3 (by decide)).2.2 "boom" rfl (by decide),
    h.2 (by decide)⟩

theorem table_keys_dict_insert_update (t : SubTable) (u : ℤ) (v : Option String) :
    table_keys (t.map (fun p => if p.1 == u then (u, v) else p)) = table_keys t := by
  unfold table_keys
  rw [List.map_map]
  apply List.map_congr_left
  intro p _
  by_cases h : p.1 = u <;> simp [h]

theorem dict_insert_keys_nodup (t : SubTable) (u : ℤ) (v : Option String)
    (hnd : (table_keys t).Nodup) :
    (table_keys (dict_insert t u v)).Nodup := by
  unfold dict_insert
  split
  · rw [table_keys_dict_insert_update]
    exact hnd
  · rename_i hany
    have hnotin : u ∉ table_keys t := by
      intro hmem
      obtain ⟨p, hp, hk⟩ := List.mem_map.mp hmem
      exact hany (List.any_eq_true.mpr ⟨p, hp, by simp [hk]⟩)
    rw [table_keys, List.map_append]
    refine List.nodup_append.mpr ⟨hnd, List.nodup_singleton u, ?_⟩
    intro a ha hb
    simp only [List.map_cons, List.map_nil, List.mem_singleton] at hb
    subst hb
    exact hnotin ha

theorem mem_keys_dict_insert_self (t : SubTable) (u : ℤ) (v : Option String) :
    u ∈ table_keys (dict_insert t u v) := by
  unfold dict_insert
  split
  · rename_i hany
    rw [table_keys_dict_insert_update]
    obtain ⟨p, hp, hk⟩ := List.any_eq_true.mp hany
    exact List.mem_map.mpr ⟨p, hp, by simpa using hk⟩
  · rw [table_keys, List.map_append]
    exact List.mem_append.mpr (Or.inr (by simp))

theorem mem_keys_dict_insert_of_mem (t : SubTable) (u w : ℤ) (v : Option String)
    (h : w ∈ table_keys t) : w ∈ table_keys (dict_insert t u v) := by
  unfold dict_insert
  split
  · rw [table_keys_dict_insert_update]
    exact h
  · rw [table_keys, List.map_append]
    exact List.mem_append.mpr (Or.inl h)

theorem dict_insert_values_none (t : SubTable) (u : ℤ)
    (hall : ∀ p ∈ t, p.2 = none) :
    ∀ p ∈ dict_insert t u none, p.2 = none := by
  intro p hp
  unfold dict_insert at hp
  split at hp
  · obtain ⟨q, hq, hqe⟩ := List.mem_map.mp hp
    subst hqe
    by_cases h : q.1 = u
    · simp [h]
    · simp only [h, beq_iff_eq, if_false]
      exact hall q hq
  · rcases List.mem_append.mp hp with h1 | h2
    · exact hall p h1
    · simp only [List.mem_singleton] at h2
      rw [h2]

theorem load_subscriptions_values_aux (users : List ℤ) (acc : SubTable)
    (hall : ∀ p ∈ acc, p.2 = none) :
    ∀ p ∈ users.foldl (fun a u => dict_insert a u none) acc, p.2 = none := by
  induction users generalizing acc with
  | nil => exact hall
  | cons v rest ih => exact ih _ (dict_insert_values_none acc v hall)

theorem load_keys_nodup_aux (users : List ℤ) (acc : SubTable)
    (hnd : (table_keys acc).Nodup) :
    (table_keys (users.foldl (fun a u => dict_insert a u none) acc)).Nodup := by
  induction users generalizing acc with
  | nil => exact hnd
  | cons v rest ih => exact ih _ (dict_insert_keys_nodup acc v none hnd)

theorem mem_keys_load_aux (users : List ℤ) (acc : SubTable) (u : ℤ)
    (h : u ∈ table_keys acc ∨ u ∈ users) :
    u ∈ table_keys (users.foldl (fun a w => dict_insert a w none) acc) := by
  induction users generalizing acc with
  | nil =>
    rcases h with h1 | h2
    · exact h1
    · cases h2
  | cons v rest ih =>
    rcases h with h1 | h2
    · exact ih _ (Or.inl (mem_keys_dict_insert_of_mem acc v u none h1))
    · rcases List.mem_cons.mp h2 with rfl | hr
      · exact ih _ (Or.inl (mem_keys_dict_insert_self acc u none))
      · exact ih _ (Or.inr hr)

/-- C8: loading a legacy list-only subscription store yields every listed id
present with fingerprint `none`, and each such subscriber is eligible for
exactly one delivery of the next distinct snapshot: the first delivery issues
exactly one network send to it, and a second delivery of the same snapshot
issues none. -/
theorem legacy_migration_spec (subscribed_users : List ℤ) (u : ℤ) (msg : String)
    (hashFn : String → String) (hu : u ∈ subscribed_users) :
    get_hash (load_subscriptions_legacy subscribed_users) u = some none ∧
    (∀ p ∈ load_subscriptions_legacy subscribed_users, p.2 = none) ∧
    (send_notification (load_subscriptions_legacy subscribed_users) msg hashFn
        (fun _ => .ok)).sent.count u = 1 ∧
    (send_notification
        (send_notification (load_subscriptions_legacy subscribed_users) msg hashFn
          (fun _ => .ok)).table msg hashFn (fun _ => .ok)).sent.count u = 0 := by
  have hkeys : u ∈ table_keys (load_subscriptions_legacy subscribed_users) :=
    mem_keys_load_aux subscribed_users [] u (Or.inr hu)
  have hnd : (table_keys (load_subscriptions_legacy subscribed_users)).Nodup :=
    load_keys_nodup_aux subscribed_users [] (by simp [table_keys])
  have hvals : ∀ p ∈ load_subscriptions_legacy subscribed_users, p.2 = none :=
    load_subscriptions_values_aux subscribed_users [] (by simp)
  unfold table_keys at hkeys
  obtain ⟨p, hp, hk⟩ := List.mem_map.mp hkeys
  have hget : get_hash (load_subscriptions_legacy subscribed_users) u = some none := by
    have hg := get_hash_eq_of_mem _ p u hnd hp hk
    rw [hvals p hp] at hg
    exact hg
  have hcounts := send_twice_counts (load_subscriptions_legacy subscribed_users)
    msg hashFn (fun _ => .ok) u none hnd hget (by simp) rfl
  exact ⟨hget, hvals, hcounts.1, hcounts.2⟩

/-- Witness for C8: a concrete legacy store with two ids. -/
theorem legacy_migration_spec_witness :
    get_hash (load_subscriptions_legacy [(5 : ℤ), 7]) 5 = some none ∧
    (∀ p ∈ load_subscriptions_legacy [(5 : ℤ), 7], p.2 = none) ∧
    (send_notification (load_subscriptions_legacy [(5 : ℤ), 7]) "m" id
        (fun _ => .ok)).sent.count 5 = 1 ∧
    (send_notification
        (send_notification (load_subscriptions_legacy [(5 : ℤ), 7]) "m" id
          (fun _ => .ok)).table "m" id (fun _ => .ok)).sent.count 5 = 0 :=
  legacy_migration_spec [(5 : ℤ), 7] 5 "m" id (by decide)

/- ------------------------------------------------------------------ -/
/- Slot filtering: `WildBerriesAPI._process_sheet_data`                -/
/- ------------------------------------------------------------------ -/

/-- One acceptance-coefficient record returned by the remote API. -/
structure Coef where
  date : String
  warehouseID : ℤ
  warehouseName : String
  coefficient : ℚ
  boxTypeName : String
  allowUnload : Bool
deriving DecidableEq

/-- One entry of a sheet's `available_slots` (wb_api.py lines 302-309). -/
structure Slot where
  date : String
  warehouse_id : ℤ
  warehouse_name : String
  coefficient : ℚ
  box_type : String
  is_free : Bool
deriving DecidableEq

/-- wb_api.py lines 302-309: the slot dict built from a passing record. -/
def mk_slot (c : Coef) : Slot :=
  ⟨c.date, c.warehouseID, c.warehouseName, c.coefficient, c.boxTypeName,
   decide (c.coefficient = 0)⟩

/-- wb_api.py line 290: ids of the sheet's warehouses that resolved to an id
(`[wid for wid in warehouse_ids.values() if wid is not None]`). -/
def our_warehouse_ids (warehouse_ids : List (String × Option ℤ)) : List ℤ :=
  (warehouse_ids.map Prod.snd).filterMap id

/-- wb_api.py lines 289-311: a sheet's `available_slots`.  `max_coefficient`
is the sheet's optional field, `sheet_data.get('max_coefficient', 1.0)`
defaulting to 1; when the global coefficients list is empty (falsy) the
block is skipped and the slots stay empty. -/
def process_sheet_slots (warehouse_ids : List (String × Option ℤ))
    (max_coefficient : Option ℚ) (coefficients : List Coef) : List Slot :=
  if coefficients.isEmpty then []
  else
    (coefficients.filter (fun c =>
      decide (c.warehouseID ∈ our_warehouse_ids warehouse_ids) &&
      !(c.coefficient == -1) &&
      decide (c.coefficient ≤ max_coefficient.getD 1) &&
      c.allowUnload)).map mk_slot

/-- C10: a coefficient record contributes a slot to a sheet's
`available_slots` iff its warehouse id is among the sheet's resolved
warehouse ids, its coefficient is not −1, its coefficient is at most the
sheet's `max_coefficient` (defaulting to 1 when unset), and its
`allowUnload` field is exactly `True`. -/
theorem available_slots_iff (warehouse_ids : List (String × Option ℤ))
    (max_coefficient : Option ℚ) (coefficients : List Coef) (s : Slot) :
    s ∈ process_sheet_slots warehouse_ids max_coefficient coefficients ↔
    ∃ c ∈ coefficients,
      (c.warehouseID ∈ our_warehouse_ids warehouse_ids ∧
       c.coefficient ≠ -1 ∧
       c.coefficient ≤ max_coefficient.getD 1 ∧
       c.allowUnload = true) ∧
      s = mk_slot c := by
  unfold process_sheet_slots
  split
  · rename_i he
    rw [List.isEmpty_iff] at he
    subst he
    simp
  · simp only [List.mem_map, List.mem_filter, Bool.and_eq_true, decide_eq_true_eq,
      Bool.not_eq_true', beq_eq_false_iff_ne]
    constructor
    · rintro ⟨c, ⟨hc, hpred⟩, rfl⟩
      exact ⟨c, hc, ⟨hpred.1.1.1, hpred.1.1.2, hpred.1.2, hpred.2⟩, rfl⟩
    · rintro ⟨c, hc, ⟨h1, h2, h3, h4⟩, rfl⟩
      exact ⟨c, ⟨hc, ⟨⟨⟨h1, h2⟩, h3⟩, h4⟩⟩, rfl⟩

/- ------------------------------------------------------------------ -/
/- CLI `--once` mode: `main` in wb_monitor.py                          -/
/- ------------------------------------------------------------------ -/

/-- The fields of the cycle-result dict inspected by `main`
(wb_monitor.py lines 570-582). -/
structure CycleResult where
  success : Bool
  error : Option String
  parse_time : ℚ
  api_time : ℚ
  total_time : ℚ
  cycle_type : String

/-- Observable effect of one `--once` run: number of monitoring cycles
executed, process exit status, and the lines written to stdout and stderr.
Numeric interpolations of the Python f-strings are elided; the error text is
kept verbatim (Python renders a missing value as "None"). -/
structure OnceRun where
  cycles_run : ℕ
  exit_code : ℕ
  stdout_lines : List String
  stderr_lines : List String

/-- `main` with `--once` (wb_monitor.py lines 570-582): one
`run_optimized_cycle`; on success print the summary and exit normally
(status 0); on failure print the error with `print` — i.e. to stdout — and
call `sys.exit(1)`. -/
def main_once (result : CycleResult) : OnceRun :=
  if result.success then
    ⟨1, 0,
      ["🔄 Выполнение одного оптимизированного цикла...",
       "\n✅ Цикл завершен успешно"]
      ++ (if 0 < result.parse_time then ["📊 Парсинг"] else [])
      ++ ["🌐 API", "🎯 Тип цикла: " ++ result.cycle_type], []⟩
  else
    ⟨1, 1,
      ["🔄 Выполнение одного оптимизированного цикла...",
       "\n❌ Ошибка мониторинга: " ++ result.error.getD "None"], []⟩

/-- C9 counterexample: on a failing cycle the `--once` mode exits with
status 1 but writes nothing at all to standard error — the failure reason
goes to standard output. -/
theorem once_failure_not_stderr :
    (main_once ⟨false, some "boom", 0, 0, 1, "parse_failed"⟩).exit_code = 1 ∧
    (main_once ⟨false, some "boom", 0, 0, 1, "parse_failed"⟩).stderr_lines = [] ∧
    ("\n❌ Ошибка мониторинга: boom") ∈
      (main_once ⟨false, some "boom", 0, 0, 1, "parse_failed"⟩).stdout_lines := by
  refine ⟨rfl, rfl, ?_⟩
  simp [main_once]

/-- C9 amended: `--once` runs exactly one monitoring cycle and exits with
status 0 on success and 1 on failure, printing the failure reason to
standard output (nothing is ever written to standard error). -/
theorem main_once_spec (r : CycleResult) :
    (main_once r).cycles_run = 1 ∧
    (main_once r).stderr_lines = [] ∧
    (r.success = true → (main_once r).exit_code = 0) ∧
    (r.success = false →
      (main_once r).exit_code = 1 ∧
      ("\n❌ Ошибка мониторинга: " ++ r.error.getD "None") ∈
        (main_once r).stdout_lines) := by
  rcases hr : r.success <;> simp [main_once, hr]

/-- Witness for C9's amended claim at a succeeding and a failing cycle. -/
theorem main_once_spec_witness :
    (main_once ⟨true, none, 1, 2, 3, "parse_and_api"⟩).exit_code = 0 ∧
    (main_once ⟨false, some "boom", 0, 0, 1, "parse_failed"⟩).exit_code = 1 :=
  ⟨(main_once_spec ⟨true, none, 1, 2, 3, "parse_and_api"⟩).2.2.1 rfl,
   ((main_once_spec ⟨false, some "boom", 0, 0, 1, "parse_failed"⟩).2.2.2 rfl).1⟩
